import Mathlib

/-!
# Verification of the IN-predicate Set engine and its sorted-tuple range index

Shallow embedding of `src/Interpreters/Set.cpp` (the `Set` class and
`MergeTreeSetIndex`).  Column cells are modelled over `Int` values, with
`none` standing for SQL NULL; the columnar value-access collaborator
(`IColumn::compareAt` with null direction hint 1, i.e. NULL sorts greatest)
is modelled by `cellCmp`.  External collaborators that the shown code only
calls (accurate casts, the monotonic-function-chain evaluator, the binary
stream layer, `SizeLimits`) are modelled as parameters or small definitions,
each marked in its doc comment.
-/

/-- One cell of a column; `none` models SQL NULL. -/
abbrev Cell := Option Int

/-- A key tuple (one row across the key columns). -/
abbrev Row := List Cell

/-- One column: the list of its cells. -/
abbrev Col := List Cell

/-- Model of `IColumn::compareAt(row, 0, rhs, 1)` for (possibly Nullable)
integer columns: the null direction hint 1 makes NULL compare greater than
every concrete value.  Returns -1/0/1. -/
def cellCmp : Cell → Cell → Int
  | none, none => 0
  | none, some _ => 1
  | some _, none => -1
  | some a, some b => if a < b then -1 else if a = b then 0 else 1

/-- Model of the `IDataType` shapes the shown code inspects:  a base numeric
type, a string type, the `Nullable` wrapper, the `LowCardinality`
(dictionary) wrapper and `Array` as a representative nested type. -/
inductive DataType
  | int
  | str
  | nullable (inner : DataType)
  | lowCardinality (inner : DataType)
  | array (inner : DataType)
deriving DecidableEq

/-- Model of `DataType::getName`, used only to state that error messages
name the types involved. -/
def DataType.getName : DataType → String
  | .int => "Int64"
  | .str => "String"
  | .nullable t => "Nullable(" ++ t.getName ++ ")"
  | .lowCardinality t => "LowCardinality(" ++ t.getName ++ ")"
  | .array t => "Array(" ++ t.getName ++ ")"

/-- Model of `removeNullable`: strips a top-level `Nullable` wrapper. -/
def removeNullable : DataType → DataType
  | .nullable t => t
  | t => t

/-- Model of `recursiveRemoveLowCardinality`: removes dictionary encoding at
every nesting level. -/
def recursiveRemoveLowCardinality : DataType → DataType
  | .lowCardinality t => recursiveRemoveLowCardinality t
  | .array t => .array (recursiveRemoveLowCardinality t)
  | .nullable t => .nullable (recursiveRemoveLowCardinality t)
  | t => t

/-- Model of `IDataType::canBeInsideNullable`: wrappers and arrays cannot be
wrapped in `Nullable` again. -/
def DataType.canBeInsideNullable : DataType → Bool
  | .nullable _ => false
  | .lowCardinality _ => false
  | .array _ => false
  | _ => true

/-- Model of `DataTypeLowCardinality::getDictionaryType`. -/
def dictionaryType : DataType → DataType
  | .lowCardinality inner => inner
  | t => t

/-- Modelled from the spec: `SizeLimits` (its source is not among the shown
files).  Per the spec, overflow is "signaled cooperatively via a boolean
return": `check` returns `false` once the accumulated row count or byte
size exceeds a configured nonzero limit, `true` otherwise. -/
structure SizeLimits where
  max_rows : Nat
  max_bytes : Nat
deriving DecidableEq

/-- Modelled from the spec: `SizeLimits::check(rows, bytes, ...)`; a limit
of 0 means unlimited. -/
def SizeLimits.check (l : SizeLimits) (rows bytes : Nat) : Bool :=
  (l.max_rows == 0 || decide (rows ≤ l.max_rows))
    && (l.max_bytes == 0 || decide (bytes ≤ l.max_bytes))

/-- The state of a `Set`.  `keys` is the contents of the chosen hash-table
variant (an unordered collection probed by structural equality);
`variant_chosen` is the negation of `data.empty()`, i.e. whether
`SetVariants::init` picked a non-EMPTY method. -/
structure SetState where
  limits : SizeLimits
  fill_set_elements : Bool
  transform_null_in : Bool
  keys_size : Nat
  local_header : List DataType
  data_types : List DataType
  set_elements_types : List DataType
  set_elements : List Col
  keys : List Row
  variant_chosen : Bool
  is_created : Bool
deriving DecidableEq

namespace Set

/-- The `Set(limits, fill_set_elements, transform_null_in)` constructor. -/
def mk0 (limits : SizeLimits) (fill tni : Bool) : SetState :=
  { limits := limits
    fill_set_elements := fill
    transform_null_in := tni
    keys_size := 0
    local_header := []
    data_types := []
    set_elements_types := []
    set_elements := []
    keys := []
    variant_chosen := false
    is_created := false }

/-- The `data_types` computed by `Set::setHeader`: the header type with a
top-level `LowCardinality` replaced by its dictionary type and, unless
`transform_null_in`, the `Nullable` wrapper removed. -/
def headerDataTypes (header : List DataType) (tni : Bool) : List DataType :=
  (header.map dictionaryType).map (fun t => if tni then t else removeNullable t)

/-- The `set_elements_types` computed by `Set::setHeader`: the raw header
type with, unless `transform_null_in`, the `Nullable` wrapper removed
(dictionary encoding is not stripped here, mirroring the source). -/
def headerElemTypes (header : List DataType) (tni : Bool) : List DataType :=
  header.map (fun t => if tni then t else removeNullable t)

/-- `Set::setHeader`: a no-op once a variant is chosen (`!data.empty()`);
otherwise fixes the schema, pre-allocates empty element columns when
`fill_set_elements`, and initializes the hash-table variant (EMPTY exactly
when there are zero key columns, per the variant selector). -/
def setHeader (s : SetState) (header : List DataType) : SetState :=
  if s.variant_chosen then s
  else
    { s with
      local_header := header
      keys_size := header.length
      data_types := headerDataTypes header s.transform_null_in
      set_elements_types := headerElemTypes header s.transform_null_in
      set_elements :=
        if s.fill_set_elements then header.map (fun _ => ([] : Col)) else s.set_elements
      keys := []
      variant_chosen := decide (header.length ≠ 0) }

/-- Row `i` of a block given by columns (`tupleAt` is the key tuple the
per-row loops of the source read). -/
def tupleAt (cols : List Col) (i : Nat) : Row :=
  cols.map (fun c => c.getD i none)

/-- `Block::rows()`: the common size of the block's columns (size of the
first column). -/
def blockRows (cols : List Col) : Nat :=
  (cols.headD []).length

/-- The per-row loop of `Set::insertFromBlockImplCase`: rows with a NULL
component are skipped when the null map is present (`!transform_null_in`),
otherwise the tuple is emplaced; the filter records `isInserted` per row.
Returns the updated table contents and the filter. -/
def processRows (tni : Bool) (keys : List Row) : List Row → List Row × List Bool
  | [] => (keys, [])
  | r :: rs =>
    if !tni && r.any (fun c => c == none) then
      let p := processRows tni keys rs
      (p.1, false :: p.2)
    else if r ∈ keys then
      let p := processRows tni keys rs
      (p.1, false :: p.2)
    else
      let p := processRows tni (keys ++ [r]) rs
      (p.1, true :: p.2)

/-- The distinctness filter `Set::insertFromBlock` / `Set::markDistinctBlock`
compute for a block. -/
def distinctMask (s : SetState) (cols : List Col) : List Bool :=
  (processRows s.transform_null_in s.keys
    ((List.range (blockRows cols)).map (tupleAt cols))).2

/-- The table contents after feeding a block. -/
def keysAfter (s : SetState) (cols : List Col) : List Row :=
  (processRows s.transform_null_in s.keys
    ((List.range (blockRows cols)).map (tupleAt cols))).1

/-- `IColumn::filter`: keep the cells whose mask bit is set. -/
def filterByMask (c : Col) (mask : List Bool) : Col :=
  ((c.zip mask).filter (fun p => p.2)).map (fun p => p.1)

/-- Modelled from the spec: the byte accounting of the chosen hash-table
variant (`SetVariants::getTotalByteCount` is not among the shown files);
any monotone measure of the stored keys serves the shown logic. -/
def totalByteCountModel (keys : List Row) : Nat :=
  (keys.map (fun r => r.length)).sum

/-- The body of `Set::insertFromBlock` after the header check.
`extract_holder` models whether `extractNestedColumnsAndNullMap` returned a
non-null `null_map_holder`; the source only makes that call when
`!transform_null_in`.  Note the element-column update appends the
mask-filtered cells and then, only `if (transform_null_in && null_map_holder)`,
a NULL marker.  Returns the new state and the value of
`limits.check(totalRowCount, totalByteCount, ...)`. -/
def insertCore (s : SetState) (extract_holder : Bool) (cols : List Col) :
    SetState × Bool :=
  let null_map_holder := !s.transform_null_in && extract_holder
  let keys2 := keysAfter s cols
  let mask := distinctMask s cols
  let se2 :=
    if s.fill_set_elements then
      s.set_elements.zipWith
        (fun e c =>
          let filtered := filterByMask c mask
          let e2 := if e.isEmpty then filtered else e ++ filtered
          if s.transform_null_in && null_map_holder then e2 ++ [none] else e2)
        cols
    else s.set_elements
  let s2 := { s with keys := keys2, set_elements := se2 }
  (s2, s2.limits.check keys2.length (totalByteCountModel keys2))

/-- `Set::insertFromBlock`: throws a logical error before `setHeader`,
otherwise inserts and reports the limit check. -/
def insertFromBlock (s : SetState) (extract_holder : Bool) (cols : List Col) :
    Except String (SetState × Bool) :=
  if !s.variant_chosen then
    .error "Method Set::setHeader must be called before Set::insertFromBlock"
  else
    .ok (insertCore s extract_holder cols)

/-- `Set::markDistinctBlock`: same header check and the same
`insertFromBlockImpl` call as `insertFromBlock` (so the hash table is
updated), but the element columns are never touched and the filter is only
materialized when `fill_set_elements`. -/
def markDistinctBlock (s : SetState) (cols : List Col) :
    Except String (SetState × Option (List Bool)) :=
  if !s.variant_chosen then
    .error "Method Set::setHeader must be called before Set::insertFromBlock"
  else
    .ok ({ s with keys := keysAfter s cols },
         if s.fill_set_elements then some (distinctMask s cols) else none)

/-- The cast loop of `Set::execute`: each probe column is cast to the stored
type, with the nullable-tolerant cast (`castColumnAccurateOrNull`) chosen
when `!transform_null_in` and the stored type can live inside `Nullable`.
The two accurate-cast collaborators are parameters (their sources are out of
the shown scope). -/
def castKeyCols (s : SetState) (castA castAON : DataType → Cell → Cell)
    (cols : List Col) : List Col :=
  (s.data_types.zip cols).map
    (fun tc =>
      if !s.transform_null_in && tc.1.canBeInsideNullable then
        tc.2.map (castAON tc.1)
      else
        tc.2.map (castA tc.1))

/-- `Set::execute`: errors on a zero-column block; returns an empty result
for a zero-row block before any further check; returns a constant column for
an empty-schema set; checks the column count; casts; extracts the null map
when `!transform_null_in`; then per row either reports `negative` (NULL key
component) or `negative XOR found` (`Set::executeImplCase`). -/
def execute (s : SetState) (castA castAON : DataType → Cell → Cell)
    (cols : List Col) (negative : Bool) : Except String (List Bool) :=
  if cols.length = 0 then
    .error "Logical error: no columns passed to Set::execute method."
  else
    let n := (cols.headD []).length
    if n = 0 then .ok []
    else if s.data_types.isEmpty then .ok (List.replicate n negative)
    else if s.data_types.length ≠ cols.length then
      .error "Number of columns in section IN does not match."
    else
      let key_columns := castKeyCols s castA castAON cols
      let null_map : Option (List Bool) :=
        if !s.transform_null_in then
          some ((List.range n).map
            (fun i => (tupleAt key_columns i).any (fun c => c == none)))
        else none
      .ok ((List.range n).map (fun i =>
        match null_map with
        | some nm =>
          if nm.getD i false then negative
          else negative ^^ decide (tupleAt key_columns i ∈ s.keys)
        | none => negative ^^ decide (tupleAt key_columns i ∈ s.keys)))

/-- One item of the binary wire stream; the nested serializers
(`SizeLimits::serialize`, `serializeBlock`, the variant's `write`) are out of
the shown scope, so each is one opaque-payload item. -/
inductive WireItem
  | limitsW (l : SizeLimits)
  | boolW (b : Bool)
  | blockW (h : List DataType)
  | payloadW (keys : List Row)
deriving DecidableEq

/-- `Set::serialize`: limits, the two flags, the header block, the
variant-specific payload (nothing for the EMPTY variant), the built flag —
in this order. -/
def serialize (s : SetState) : List WireItem :=
  [WireItem.limitsW s.limits, WireItem.boolW s.fill_set_elements,
   WireItem.boolW s.transform_null_in, WireItem.blockW s.local_header]
  ++ (if s.variant_chosen then [WireItem.payloadW s.keys] else [])
  ++ [WireItem.boolW s.is_created]

/-- `Set::deserializeImpl`: reads the header block, runs `setHeader`, reads
the variant payload (for a non-EMPTY variant) and the built flag. -/
def deserializeImpl (s : SetState) : List WireItem → Option SetState
  | WireItem.blockW h :: rest =>
    let s1 := setHeader s h
    if s1.variant_chosen then
      match rest with
      | [WireItem.payloadW ks, WireItem.boolW b] =>
        some { s1 with keys := ks, is_created := b }
      | _ => none
    else
      match rest with
      | [WireItem.boolW b] => some { s1 with is_created := b }
      | _ => none
  | _ => none

/-- `Set::deserialize`: reads the limits and the two flags, constructs a
fresh `Set` and delegates to `deserializeImpl`. -/
def deserialize (items : List WireItem) : Option SetState :=
  match items with
  | WireItem.limitsW l :: WireItem.boolW f :: WireItem.boolW t :: rest =>
    deserializeImpl (mk0 l f t) rest
  | _ => none

/-- `Set::areTypesEqual`. -/
def areTypesEqual (s : SetState) (i : Nat) (t : DataType) : Bool :=
  removeNullable (recursiveRemoveLowCardinality (s.data_types.getD i .int))
    == removeNullable (recursiveRemoveLowCardinality t)

/-- `Set::checkTypesEqual`: raises TYPE_MISMATCH naming both types. -/
def checkTypesEqual (s : SetState) (i : Nat) (t : DataType) :
    Except String Unit :=
  if !(areTypesEqual s i t) then
    .error ("Types of column " ++ toString (i + 1)
      ++ " in section IN do not match: " ++ t.getName ++ " on the left, "
      ++ (s.data_types.getD i .int).getName ++ " on the right")
  else .ok ()

end Set

/-- `FieldValue` / a `Field` bound of a `Range`: negative infinity, positive
infinity, or a concrete one-row column value (which may itself be NULL). -/
inductive FieldB
  | negInf
  | posInf
  | val (c : Cell)
deriving DecidableEq

/-- `KeyCondition::Range`: two bounds with inclusivity flags. -/
structure RangeT where
  left : FieldB
  right : FieldB
  left_included : Bool
  right_included : Bool

/-- `KeyTuplePositionMapping`: index-tuple position, outer key position, and
the monotonic-transform chain.  The chain evaluator is an external
collaborator, so each chain element is modelled by its end-to-end effect on
a range (`none` = not applicable over the range). -/
structure KeyTuplePositionMapping where
  key_index : Nat
  tuple_index : Nat
  functions : List (RangeT → Option RangeT)

/-- `MergeTreeSetIndex`: the surviving mapping list and the sorted tuple
set.  `ordered_set` is kept in row form (row `j` lists the cells of the
source's columns `ordered_set[0..tuple_size)` at position `j`). -/
structure MergeTreeSetIndex where
  indexes_mapping : List KeyTuplePositionMapping
  ordered_set : List Row

/-- The `compare` lambda of `MergeTreeSetIndex::checkInRange`: any stored
value is greater than a negative-infinity bound; against a positive-infinity
bound a NULL stored value compares equal and any other value compares less;
a concrete bound defers to the column comparator. -/
def fvCompare (lhs : Cell) (rhs : FieldB) : Int :=
  match rhs with
  | .negInf => 1
  | .posInf => match lhs with | none => 0 | some _ => -1
  | .val c => cellCmp lhs c

/-- The lexicographic comparison the `less` / `equals` lambdas perform
between a stored row and a bound point (first nonzero component decides).
In the source both sides always have exactly `tuple_size` components; the
unequal-length cases totalize the definition (shorter list first). -/
def lexCmpRP : Row → List FieldB → Int
  | [], [] => 0
  | [], _ :: _ => -1
  | _ :: _, [] => 1
  | c :: cs, p :: ps =>
    let r := fvCompare c p
    if r = 0 then lexCmpRP cs ps else r

/-- Row-to-row lexicographic comparison (column 0 highest priority), the
order `sortBlock` establishes with sort description `(i, 1, 1)` per column.
Unequal lengths (never produced by the source) are totalized shorter-first. -/
def lexCmpRR : Row → Row → Int
  | [], [] => 0
  | [], _ :: _ => -1
  | _ :: _, [] => 1
  | a :: as, b :: bs =>
    let r := cellCmp a b
    if r = 0 then lexCmpRR as bs else r

/-- Non-strict row order induced by `lexCmpRR`. -/
def rowLe (a b : Row) : Prop := lexCmpRR a b ≤ 0

instance : DecidableRel rowLe := fun a b => by
  unfold rowLe; infer_instance

/-- The `less` lambda: stored row strictly below the bound point. -/
def lessRP (r : Row) (p : List FieldB) : Bool := decide (lexCmpRP r p < 0)

/-- `std::lower_bound` over the sorted row indices with predicate
`less(row, point)`: on a partitioned range it returns the first position
whose row is not less than the point, i.e. the length of the
longest `less` prefix. -/
def lowerBoundIdx (rows : List Row) (p : List FieldB) : Nat :=
  (rows.takeWhile (fun r => lessRP r p)).length

/-- One component of the `one_element_range` test: both bounds normal and
equal under the column comparator, or the same infinity on both sides. -/
def oneEltCell : FieldB → FieldB → Bool
  | .val a, .val b => cellCmp a b == 0
  | .posInf, .posInf => true
  | .negInf, .negInf => true
  | _, _ => false

/-- The `one_element_range` test of `checkInRange`. -/
def oneElementRange (lp rp : List FieldB) : Bool :=
  (lp.zip rp).all (fun pr => oneEltCell pr.1 pr.2)

/-- `KeyCondition::applyMonotonicFunctionsChainToRange`, modelled by its
contract (external collaborator): push the range through each transform in
turn; any non-applicable transform aborts. -/
def applyChain (fs : List (RangeT → Option RangeT)) (r : RangeT) :
    Option RangeT :=
  fs.foldl (fun acc f => acc.bind f) (some r)

/-- Fallback for an out-of-range `key_index` (the source indexes
`key_ranges` unchecked). -/
def defaultRange : RangeT := ⟨.negInf, .posInf, true, true⟩

/-- The bound-building loop of `checkInRange`: per mapping, transform the
outer range and accumulate the two points and the conjunctions of the
inclusivity flags; `none` if any chain is not applicable. -/
def buildPoints (key_ranges : List RangeT) :
    List KeyTuplePositionMapping →
    Option (List FieldB × List FieldB × Bool × Bool)
  | [] => some ([], [], true, true)
  | m :: ms =>
    match applyChain m.functions (key_ranges.getD m.key_index defaultRange) with
    | none => none
    | some nr =>
      match buildPoints key_ranges ms with
      | none => none
      | some (lp, rp, li, ri) =>
        some (nr.left :: lp, nr.right :: rp,
              nr.left_included && li, nr.right_included && ri)

/-- `BoolMask`. -/
structure BoolMask where
  can_be_true : Bool
  can_be_false : Bool
deriving DecidableEq

/-- `MergeTreeSetIndex::checkInRange`.  `(true, true)` when some transform
chain is not applicable; otherwise binary-search the sorted tuple set for
the two bound points and resolve per the single-point / multi-point cases
of the source. -/
def MergeTreeSetIndex.checkInRange (idx : MergeTreeSetIndex)
    (key_ranges : List RangeT) : BoolMask :=
  match buildPoints key_ranges idx.indexes_mapping with
  | none => ⟨true, true⟩
  | some (lp, rp, linc, rinc) =>
    let rows := idx.ordered_set
    let n := rows.length
    let ll := lowerBoundIdx rows lp
    let rl := lowerBoundIdx rows rp
    if oneElementRange lp rp then
      if !linc || !rinc then ⟨false, true⟩
      else if ll < n ∧ lexCmpRP (rows.getD ll []) lp = 0 then ⟨true, false⟩
      else ⟨false, true⟩
    else if ll + 1 < rl then ⟨true, true⟩
    else if ll + 1 = rl then
      if linc || !(lexCmpRP (rows.getD ll []) lp == 0) then ⟨true, true⟩
      else
        ⟨rinc && decide (rl < n) && (lexCmpRP (rows.getD rl []) rp == 0), true⟩
    else
      ⟨rinc && decide (rl < n) && (lexCmpRP (rows.getD rl []) rp == 0), true⟩

/-- `MergeTreeSetIndex::hasMonotonicFunctionsChain`. -/
def MergeTreeSetIndex.hasMonotonicFunctionsChain
    (idx : MergeTreeSetIndex) : Bool :=
  idx.indexes_mapping.any (fun m => !m.functions.isEmpty)

/-- The `(key_index, tuple_index)` comparator `std::sort` uses in the
`MergeTreeSetIndex` constructor (non-strict form). -/
def mappingLe (a b : KeyTuplePositionMapping) : Prop :=
  a.key_index < b.key_index
    ∨ (a.key_index = b.key_index ∧ a.tuple_index ≤ b.tuple_index)

instance : DecidableRel mappingLe := fun a b => by
  unfold mappingLe; infer_instance

/-- `std::unique` with the equal-`key_index` predicate: drop every element
whose `key_index` equals that of the last kept element. -/
def dedupByKey : List KeyTuplePositionMapping → List KeyTuplePositionMapping
  | [] => []
  | [m] => [m]
  | m1 :: m2 :: rest =>
    if m1.key_index == m2.key_index then dedupByKey (m1 :: rest)
    else m1 :: dedupByKey (m2 :: rest)
termination_by l => l.length

/-- The `MergeTreeSetIndex` constructor: sort the mappings by
`(key_index, tuple_index)`, drop duplicate `key_index` entries keeping the
first, pick the element columns at the surviving `tuple_index` positions,
and sort the resulting tuples lexicographically (`sortBlock` with one
ascending sort description per column); stated over rows (row `j` projects
cell `j` of each picked column). -/
def mtSetIndexBuild (set_elements : List Col)
    (raw : List KeyTuplePositionMapping) : MergeTreeSetIndex :=
  let sorted := List.insertionSort mappingLe raw
  let surviving := dedupByKey sorted
  let nRows := (set_elements.headD []).length
  let projRows := (List.range nRows).map
    (fun j => surviving.map (fun m => (set_elements.getD m.tuple_index []).getD j none))
  { indexes_mapping := surviving
    ordered_set := List.insertionSort rowLe projRows }

/-- A `Set` state as the build lifecycle produces it: a variant has been
chosen (so the header was nonempty) and the cached type vectors agree with
what `setHeader` computes from the stored header block. -/
def Set.WellFormed (s : SetState) : Prop :=
  s.variant_chosen = true
    ∧ s.local_header ≠ []
    ∧ s.keys_size = s.local_header.length
    ∧ s.data_types = Set.headerDataTypes s.local_header s.transform_null_in
    ∧ s.set_elements_types = Set.headerElemTypes s.local_header s.transform_null_in

instance (s : SetState) : Decidable (Set.WellFormed s) := by
  unfold Set.WellFormed; infer_instance

/-- Feeding a list of blocks through `Set::insertFromBlock` (its post-header
body), listing after each call the resulting state and the boolean the call
returns. -/
def Set.feedStates (eh : Bool) (s : SetState) :
    List (List Col) → List (SetState × Bool)
  | [] => []
  | b :: bs =>
    let p := Set.insertCore s eh b
    p :: Set.feedStates eh p.1 bs

/-- Structural decidable equality for `Except` results (used to evaluate
the embedded operations on concrete inputs). -/
instance {e a : Type} [DecidableEq e] [DecidableEq a] :
    DecidableEq (Except e a) := fun x y =>
  match x, y with
  | .ok v, .ok w =>
    if h : v = w then .isTrue (by rw [h]) else .isFalse (by simp [h])
  | .error v, .error w =>
    if h : v = w then .isTrue (by rw [h]) else .isFalse (by simp [h])
  | .ok _, .error _ => .isFalse (by simp)
  | .error _, .ok _ => .isFalse (by simp)

/-! ## Helper lemmas on the cell and row comparators -/

theorem cellCmp_self (a : Cell) : cellCmp a a = 0 := by
  rcases a with _ | v <;> simp [cellCmp]

theorem cellCmp_eq_zero {a b : Cell} : cellCmp a b = 0 ↔ a = b := by
  rcases a with _ | x <;> rcases b with _ | y
  · simp [cellCmp]
  · simp [cellCmp]
  · simp [cellCmp]
  · simp only [cellCmp, Option.some.injEq]
    split_ifs with h1 h2
    · constructor <;> intro h <;> first | exact h.elim | omega
    · simp [h2]
    · constructor <;> intro h <;> first | exact h.elim | omega

theorem cellCmp_swap (a b : Cell) : cellCmp a b = - cellCmp b a := by
  rcases a with _ | x <;> rcases b with _ | y
  · simp [cellCmp]
  · simp [cellCmp]
  · simp [cellCmp]
  · simp only [cellCmp]
    split_ifs <;> omega

theorem cellCmp_lt_trans {a b c : Cell} (h1 : cellCmp a b < 0)
    (h2 : cellCmp b c < 0) : cellCmp a c < 0 := by
  rcases a with _ | x <;> rcases b with _ | y <;> rcases c with _ | z <;>
    simp only [cellCmp] at h1 h2 ⊢ <;> omega

theorem lexCmpRR_swap (a b : Row) : lexCmpRR a b = - lexCmpRR b a := by
  induction a generalizing b with
  | nil => rcases b with _ | ⟨y, ys⟩ <;> simp [lexCmpRR]
  | cons x xs ih =>
    rcases b with _ | ⟨y, ys⟩
    · simp [lexCmpRR]
    · simp only [lexCmpRR]
      by_cases hz : cellCmp x y = 0
      · have hz2 : cellCmp y x = 0 := by
          have := cellCmp_swap y x
          omega
        simp [hz, hz2, ih]
      · have hz2 : cellCmp y x ≠ 0 := by
          have := cellCmp_swap y x
          omega
        simp [hz, hz2, cellCmp_swap x y]

theorem lexCmpRR_trans_le {a b c : Row} (h1 : lexCmpRR a b ≤ 0)
    (h2 : lexCmpRR b c ≤ 0) : lexCmpRR a c ≤ 0 := by
  induction a generalizing b c with
  | nil => rcases c with _ | ⟨z, zs⟩ <;> simp [lexCmpRR]
  | cons x xs ih =>
    rcases b with _ | ⟨y, ys⟩
    · simp [lexCmpRR] at h1
    · rcases c with _ | ⟨z, zs⟩
      · simp [lexCmpRR] at h2
      · simp only [lexCmpRR] at h1 h2 ⊢
        by_cases e1 : cellCmp x y = 0
        · have hxy : x = y := cellCmp_eq_zero.mp e1
          subst hxy
          rw [if_pos e1] at h1
          by_cases e2 : cellCmp x z = 0
          · rw [if_pos e2] at h2 ⊢
            exact ih h1 h2
          · rw [if_neg e2] at h2 ⊢
            exact h2
        · rw [if_neg e1] at h1
          by_cases e2 : cellCmp y z = 0
          · have hyz : y = z := cellCmp_eq_zero.mp e2
            subst hyz
            rw [if_neg e1]
            exact h1
          · rw [if_neg e2] at h2
            have hlt : cellCmp x z < 0 :=
              @cellCmp_lt_trans x y z (by omega) (by omega)
            have e3 : ¬ cellCmp x z = 0 := by omega
            rw [if_neg e3]
            omega

instance : IsTrans Row rowLe :=
  ⟨fun _ _ _ h1 h2 => lexCmpRR_trans_le h1 h2⟩

instance : IsTotal Row rowLe :=
  ⟨fun a b => by
    unfold rowLe
    have := lexCmpRR_swap a b
    omega⟩

theorem mappingLe_key_le {a b : KeyTuplePositionMapping}
    (h : mappingLe a b) : a.key_index ≤ b.key_index := by
  unfold mappingLe at h
  omega

instance : IsTrans KeyTuplePositionMapping mappingLe :=
  ⟨fun a b c h1 h2 => by unfold mappingLe at *; omega⟩

instance : IsTotal KeyTuplePositionMapping mappingLe :=
  ⟨fun a b => by unfold mappingLe; omega⟩

theorem fvCompare_zero_lt {x y : Cell} {q : FieldB} (h1 : cellCmp x y < 0)
    (h2 : fvCompare y q = 0) : fvCompare x q < 0 := by
  cases q with
  | negInf => simp [fvCompare] at h2
  | posInf =>
    rcases y with _ | v
    · rcases x with _ | w
      · simp [cellCmp] at h1
      · simp [fvCompare]
    · simp [fvCompare] at h2
  | val c =>
    simp only [fvCompare] at h2 ⊢
    have hyc : y = c := cellCmp_eq_zero.mp h2
    subst hyc
    exact h1

theorem lex_transport_le {a b : Row} {p : List FieldB}
    (hlen : a.length = b.length) (hab : lexCmpRR a b ≤ 0)
    (hbp : lexCmpRP b p = 0) : lexCmpRP a p ≤ 0 := by
  induction a generalizing b p with
  | nil => rcases p with _ | ⟨q, qs⟩ <;> simp [lexCmpRP]
  | cons x xs ih =>
    rcases b with _ | ⟨y, ys⟩
    · simp at hlen
    · rcases p with _ | ⟨q, qs⟩
      · simp [lexCmpRP] at hbp ⊢
      · simp only [lexCmpRP] at hbp ⊢
        simp only [lexCmpRR] at hab
        by_cases e1 : cellCmp x y = 0
        · have hxy : x = y := cellCmp_eq_zero.mp e1
          subst hxy
          rw [if_pos e1] at hab
          by_cases e2 : fvCompare x q = 0
          · rw [if_pos e2] at hbp ⊢
            exact ih (by simpa using hlen) hab hbp
          · rw [if_neg e2] at hbp
            exact absurd hbp e2
        · rw [if_neg e1] at hab
          by_cases e2 : fvCompare y q = 0
          · have hlt : fvCompare x q < 0 :=
              fvCompare_zero_lt (by omega) e2
            rw [if_neg (by omega)]
            omega
          · rw [if_neg e2] at hbp
            exact absurd hbp e2

theorem takeWhile_getD_of_lt {α : Type} (l : List α) (p : α → Bool) (i : Nat)
    (d : α) (h : i < (l.takeWhile p).length) : p (l.getD i d) = true := by
  induction l generalizing i with
  | nil => simp [List.takeWhile] at h
  | cons a t ih =>
    by_cases hp : p a = true
    · rw [List.takeWhile_cons_of_pos hp] at h
      cases i with
      | zero => simpa using hp
      | succ k =>
        rw [List.getD_cons_succ]
        exact ih k (by simpa using Nat.lt_of_succ_lt_succ h)
    · rw [List.takeWhile_cons_of_neg (by simpa using hp)] at h
      simp at h

theorem takeWhile_getD_stop {α : Type} (l : List α) (p : α → Bool) (d : α)
    (h : (l.takeWhile p).length < l.length) :
    p (l.getD (l.takeWhile p).length d) = false := by
  induction l with
  | nil => simp at h
  | cons a t ih =>
    by_cases hp : p a = true
    · rw [List.takeWhile_cons_of_pos hp] at h ⊢
      simp only [List.length_cons] at h ⊢
      rw [List.getD_cons_succ]
      exact ih (Nat.lt_of_succ_lt_succ h)
    · rw [List.takeWhile_cons_of_neg (by simpa using hp)]
      simp only [List.length_nil, List.getD_cons_zero]
      simpa using hp

/-- Correctness of the binary search against the sorted tuple set: the
element at the lower-bound position equals the point iff some element of the
set does. -/
theorem lowerBound_hit_iff {rows : List Row} {p : List FieldB} {L : Nat}
    (hrect : ∀ r ∈ rows, r.length = L)
    (hsort : List.Pairwise rowLe rows) :
    (lowerBoundIdx rows p < rows.length
        ∧ lexCmpRP (rows.getD (lowerBoundIdx rows p) []) p = 0)
      ↔ ∃ r ∈ rows, lexCmpRP r p = 0 := by
  constructor
  · rintro ⟨hlt, heq⟩
    refine ⟨rows.getD (lowerBoundIdx rows p) [], ?_, heq⟩
    rw [List.getD_eq_getElem rows [] hlt]
    exact List.getElem_mem hlt
  · rintro ⟨r, hr, hcmp⟩
    obtain ⟨j, hj, hrj⟩ := List.mem_iff_getElem.mp hr
    have hub : (rows.takeWhile (fun r => lessRP r p)).length = lowerBoundIdx rows p := rfl
    -- j is at or after the lower bound: elements before it are strictly less
    have hge : lowerBoundIdx rows p ≤ j := by
      by_contra hc
      push_neg at hc
      rw [← hub] at hc
      have := takeWhile_getD_of_lt rows (fun r => lessRP r p) j [] hc
      rw [List.getD_eq_getElem rows [] hj, hrj] at this
      unfold lessRP at this
      simp only [decide_eq_true_eq] at this
      omega
    have hlt : lowerBoundIdx rows p < rows.length := Nat.lt_of_le_of_lt hge hj
    have hstop := takeWhile_getD_stop rows (fun r => lessRP r p) []
      (by rw [hub]; exact hlt)
    rw [hub] at hstop
    unfold lessRP at hstop
    simp only [decide_eq_false_iff_not] at hstop
    have hgezero : 0 ≤ lexCmpRP (rows.getD (lowerBoundIdx rows p) []) p := by
      omega
    refine ⟨hlt, ?_⟩
    rcases Nat.eq_or_lt_of_le hge with heq | hltj
    · rw [heq, List.getD_eq_getElem rows [] hj, hrj]
      exact hcmp
    · have hle : rowLe (rows.getD (lowerBoundIdx rows p) []) (rows.getD j []) := by
        rw [List.getD_eq_getElem rows [] hlt, List.getD_eq_getElem rows [] hj]
        exact (List.pairwise_iff_getElem.mp hsort) _ _ hlt hj hltj
      have htrans : lexCmpRP (rows.getD (lowerBoundIdx rows p) []) p ≤ 0 := by
        apply lex_transport_le ?_ hle ?_
        · rw [List.getD_eq_getElem rows [] hlt, List.getD_eq_getElem rows [] hj]
          rw [hrect _ (List.getElem_mem hlt), hrect _ (List.getElem_mem hj)]
        · rw [List.getD_eq_getElem rows [] hj, hrj]
          exact hcmp
      omega

/-! ## Claim theorems -/

/-- C2: for every `MergeTreeSetIndex` and key range whose transformed bound
points are componentwise equal (the `one_element_range` case), `checkInRange`
answers `(true, false)` iff both bounds are inclusive and the point is
present in the sorted tuple set, and `(false, true)` otherwise; moreover for
a single-column index over elements 1,3,5,7 the inclusive range [2,6] yields
`(true, true)`, [3,3] yields `(true, false)` and [4,4] yields
`(false, true)`. -/
theorem checkInRange_single_point_and_examples :
    (∀ (idx : MergeTreeSetIndex) (kr : List RangeT) (lp rp : List FieldB)
        (linc rinc : Bool),
      (∀ r ∈ idx.ordered_set, r.length = idx.indexes_mapping.length) →
      List.Pairwise rowLe idx.ordered_set →
      buildPoints kr idx.indexes_mapping = some (lp, rp, linc, rinc) →
      oneElementRange lp rp = true →
      idx.checkInRange kr
        = if linc && rinc
              && idx.ordered_set.any (fun r => lexCmpRP r lp == 0)
          then ⟨true, false⟩ else ⟨false, true⟩)
    ∧ MergeTreeSetIndex.checkInRange
        ⟨[⟨0, 0, []⟩], [[some 1], [some 3], [some 5], [some 7]]⟩
        [⟨.val (some 2), .val (some 6), true, true⟩] = ⟨true, true⟩
    ∧ MergeTreeSetIndex.checkInRange
        ⟨[⟨0, 0, []⟩], [[some 1], [some 3], [some 5], [some 7]]⟩
        [⟨.val (some 3), .val (some 3), true, true⟩] = ⟨true, false⟩
    ∧ MergeTreeSetIndex.checkInRange
        ⟨[⟨0, 0, []⟩], [[some 1], [some 3], [some 5], [some 7]]⟩
        [⟨.val (some 4), .val (some 4), true, true⟩] = ⟨false, true⟩ := by
  refine ⟨?_, by decide, by decide, by decide⟩
  intro idx kr lp rp linc rinc hrect hsort hbp helt
  unfold MergeTreeSetIndex.checkInRange
  rw [hbp]
  simp only [helt, if_true]
  cases linc with
  | false => simp
  | true =>
    cases rinc with
    | false => simp
    | true =>
      simp only [Bool.not_true, Bool.or_self, Bool.or_false, Bool.and_self,
        Bool.true_and, Bool.false_or, if_false]
      have hiff := lowerBound_hit_iff (p := lp) hrect hsort
      by_cases hc : lowerBoundIdx idx.ordered_set lp < idx.ordered_set.length
          ∧ lexCmpRP (idx.ordered_set.getD (lowerBoundIdx idx.ordered_set lp) []) lp = 0
      · rw [if_pos hc]
        have hex := hiff.mp hc
        have hany : idx.ordered_set.any (fun r => lexCmpRP r lp == 0) = true := by
          rw [List.any_eq_true]
          obtain ⟨r, hr, h0⟩ := hex
          exact ⟨r, hr, by simpa using h0⟩
        rw [hany]
        simp
      · rw [if_neg hc]
        have hany : idx.ordered_set.any (fun r => lexCmpRP r lp == 0) = false := by
          by_contra hcon
          have : idx.ordered_set.any (fun r => lexCmpRP r lp == 0) = true := by
            cases h : idx.ordered_set.any (fun r => lexCmpRP r lp == 0)
            · exact absurd h hcon
            · rfl
          rw [List.any_eq_true] at this
          obtain ⟨r, hr, h0⟩ := this
          exact hc (hiff.mpr ⟨r, hr, by simpa using h0⟩)
        rw [hany]
        simp

/-- Witness for C2: the general single-point characterization applied to
the concrete single-column index over 1,3,5,7 with the inclusive range
[3,3]. -/
theorem checkInRange_single_point_witness :
    ((∀ r ∈ (MergeTreeSetIndex.mk [⟨0, 0, []⟩]
          [[some 1], [some 3], [some 5], [some 7]]).ordered_set,
        r.length = (MergeTreeSetIndex.mk [⟨0, 0, []⟩]
          [[some 1], [some 3], [some 5], [some 7]]).indexes_mapping.length)
      ∧ List.Pairwise rowLe (MergeTreeSetIndex.mk [⟨0, 0, []⟩]
          [[some 1], [some 3], [some 5], [some 7]]).ordered_set
      ∧ buildPoints [⟨.val (some 3), .val (some 3), true, true⟩]
          (MergeTreeSetIndex.mk [⟨0, 0, []⟩]
            [[some 1], [some 3], [some 5], [some 7]]).indexes_mapping
          = some ([.val (some 3)], [.val (some 3)], true, true)
      ∧ oneElementRange [.val (some 3)] [.val (some 3)] = true)
    ∧ MergeTreeSetIndex.checkInRange
        (MergeTreeSetIndex.mk [⟨0, 0, []⟩]
          [[some 1], [some 3], [some 5], [some 7]])
        [⟨.val (some 3), .val (some 3), true, true⟩]
      = if true && true
            && ([[some 1], [some 3], [some 5], [some 7]] : List Row).any
                (fun r => lexCmpRP r [.val (some 3)] == 0)
        then ⟨true, false⟩ else ⟨false, true⟩ :=
  ⟨⟨by decide, by decide, by decide, by decide⟩,
    checkInRange_single_point_and_examples.1
      (MergeTreeSetIndex.mk [⟨0, 0, []⟩]
        [[some 1], [some 3], [some 5], [some 7]])
      [⟨.val (some 3), .val (some 3), true, true⟩]
      [.val (some 3)] [.val (some 3)] true true
      (by decide) (by decide) (by decide) (by decide)⟩

theorem dedupByKey_subset : ∀ (l : List KeyTuplePositionMapping),
    ∀ m ∈ dedupByKey l, m ∈ l := by
  intro l
  induction l using dedupByKey.induct with
  | case1 => simp [dedupByKey]
  | case2 m => simp [dedupByKey]
  | case3 m1 m2 rest heq ih =>
    intro m hm
    rw [dedupByKey, if_pos heq] at hm
    rcases List.mem_cons.mp (ih m hm) with h | h
    · simp [h]
    · simp [List.mem_cons]
      tauto
  | case4 m1 m2 rest heq ih =>
    intro m hm
    rw [dedupByKey, if_neg heq] at hm
    rcases List.mem_cons.mp hm with h | h
    · simp [h]
    · have := ih m h
      simp [List.mem_cons] at this ⊢
      tauto

theorem dedupByKey_pairwise_lt : ∀ (l : List KeyTuplePositionMapping),
    List.Pairwise mappingLe l →
    List.Pairwise (fun a b => a.key_index < b.key_index) (dedupByKey l) := by
  intro l
  induction l using dedupByKey.induct with
  | case1 => simp [dedupByKey]
  | case2 m => simp [dedupByKey]
  | case3 m1 m2 rest heq ih =>
    intro hp
    rw [dedupByKey, if_pos heq]
    apply ih
    rcases List.pairwise_cons.mp hp with ⟨h1, h2⟩
    exact List.pairwise_cons.mpr
      ⟨fun x hx => h1 x (List.mem_cons_of_mem m2 hx),
       (List.pairwise_cons.mp h2).2⟩
  | case4 m1 m2 rest heq ih =>
    intro hp
    rw [dedupByKey, if_neg heq]
    rcases List.pairwise_cons.mp hp with ⟨h1, h2⟩
    refine List.pairwise_cons.mpr ⟨?_, ih h2⟩
    intro x hx
    have hx2 : x ∈ m2 :: rest := dedupByKey_subset _ x hx
    have hkey12 : m1.key_index < m2.key_index := by
      have := h1 m2 (List.mem_cons_self m2 rest)
      unfold mappingLe at this
      have hne : m1.key_index ≠ m2.key_index := by
        intro hcon
        apply heq
        simp [hcon]
      omega
    rcases List.mem_cons.mp hx2 with h | h
    · rw [h]
      exact hkey12
    · have := (List.pairwise_cons.mp h2).1 x h
      have hle := mappingLe_key_le this
      omega

theorem dedupByKey_covers : ∀ (l : List KeyTuplePositionMapping),
    List.Pairwise mappingLe l →
    ∀ m ∈ l, ∃ m2 ∈ dedupByKey l,
      m2.key_index = m.key_index ∧ m2.tuple_index ≤ m.tuple_index := by
  intro l
  induction l using dedupByKey.induct with
  | case1 => simp
  | case2 m =>
    intro _ x hx
    rw [List.mem_singleton] at hx
    exact ⟨m, by simp [dedupByKey], by simp [hx]⟩
  | case3 m1 m2 rest heq ih =>
    intro hp m hm
    rw [dedupByKey, if_pos heq]
    rcases List.pairwise_cons.mp hp with ⟨h1, h2⟩
    have hp2 : List.Pairwise mappingLe (m1 :: rest) :=
      List.pairwise_cons.mpr
        ⟨fun x hx => h1 x (List.mem_cons_of_mem m2 hx),
         (List.pairwise_cons.mp h2).2⟩
    rcases List.mem_cons.mp hm with h | h
    · exact ih hp2 m (h ▸ List.mem_cons_self m1 rest)
    · rcases List.mem_cons.mp h with h' | h'
      · -- m = m2: the kept representative for this key run covers it
        obtain ⟨m3, hm3, hk3, ht3⟩ := ih hp2 m1 (List.mem_cons_self m1 rest)
        refine ⟨m3, hm3, ?_, ?_⟩
        · rw [hk3, h']
          have : m1.key_index = m2.key_index := by simpa using heq
          omega
        · have hle12 : m1.tuple_index ≤ m2.tuple_index := by
            have := h1 m2 (List.mem_cons_self m2 rest)
            have hkeq : m1.key_index = m2.key_index := by simpa using heq
            unfold mappingLe at this
            omega
          rw [h']
          omega
      · exact ih hp2 m (List.mem_cons_of_mem m1 h')
  | case4 m1 m2 rest heq ih =>
    intro hp m hm
    rw [dedupByKey, if_neg heq]
    rcases List.pairwise_cons.mp hp with ⟨h1, h2⟩
    rcases List.mem_cons.mp hm with h | h
    · exact ⟨m1, List.mem_cons_self _ _, by simp [h], by simp [h]⟩
    · obtain ⟨m3, hm3, hk3, ht3⟩ := ih h2 m h
      exact ⟨m3, List.mem_cons_of_mem m1 hm3, hk3, ht3⟩

/-- C6: `MergeTreeSetIndex` construction sorts the mappings by
`(key_index, tuple_index)`, drops duplicate `key_index` entries keeping the
first surviving one (so the surviving mapping is strictly increasing in
`key_index` and covers every raw key with a minimal `tuple_index`
representative), reorders the element columns per the surviving
`tuple_index` positions, and sorts the resulting tuple set
lexicographically with column 0 as the highest-priority key (the sorted
rows are a permutation of the projected rows and pairwise `rowLe`). -/
theorem mtSetIndexBuild_spec (set_elements : List Col)
    (raw : List KeyTuplePositionMapping) :
    List.Pairwise (fun m1 m2 => m1.key_index < m2.key_index)
      (mtSetIndexBuild set_elements raw).indexes_mapping
    ∧ (∀ m ∈ (mtSetIndexBuild set_elements raw).indexes_mapping, m ∈ raw)
    ∧ (∀ m ∈ raw, ∃ m2 ∈ (mtSetIndexBuild set_elements raw).indexes_mapping,
        m2.key_index = m.key_index ∧ m2.tuple_index ≤ m.tuple_index)
    ∧ List.Pairwise rowLe (mtSetIndexBuild set_elements raw).ordered_set
    ∧ (mtSetIndexBuild set_elements raw).ordered_set.Perm
        ((List.range (set_elements.headD []).length).map
          (fun j => (mtSetIndexBuild set_elements raw).indexes_mapping.map
            (fun m => (set_elements.getD m.tuple_index []).getD j none))) := by
  have hsorted : List.Pairwise mappingLe (List.insertionSort mappingLe raw) :=
    List.sorted_insertionSort mappingLe raw
  refine ⟨?_, ?_, ?_, ?_, ?_⟩
  · exact dedupByKey_pairwise_lt _ hsorted
  · intro m hm
    have := dedupByKey_subset _ m hm
    exact (List.mem_insertionSort mappingLe).mp this
  · intro m hm
    exact dedupByKey_covers _ hsorted m
      ((List.mem_insertionSort mappingLe).mpr hm)
  · exact List.sorted_insertionSort rowLe _
  · exact List.perm_insertionSort rowLe _

/-- Witness for C6: the construction properties at a concrete two-mapping
input whose `key_index` collides. -/
theorem mtSetIndexBuild_spec_witness :
    List.Pairwise (fun m1 m2 => m1.key_index < m2.key_index)
      (mtSetIndexBuild [[some 2, some 1]]
        [⟨0, 0, []⟩, ⟨0, 0, []⟩]).indexes_mapping
    ∧ List.Pairwise rowLe
        (mtSetIndexBuild [[some 2, some 1]]
          [⟨0, 0, []⟩, ⟨0, 0, []⟩]).ordered_set :=
  ⟨(mtSetIndexBuild_spec [[some 2, some 1]] [⟨0, 0, []⟩, ⟨0, 0, []⟩]).1,
   (mtSetIndexBuild_spec [[some 2, some 1]] [⟨0, 0, []⟩, ⟨0, 0, []⟩]).2.2.2.1⟩

/-- C7: in the bound comparator of `checkInRange`, every stored value
(NULL included) compares greater than a negative-infinity bound, every
non-NULL stored value compares less than a positive-infinity bound, and a
NULL stored value compares equal to a positive-infinity bound — the
NULL-equality asymmetry does not apply to negative infinity. -/
theorem compare_infinity_rules :
    (∀ c : Cell, fvCompare c FieldB.negInf = 1)
    ∧ (∀ v : Int, fvCompare (some v) FieldB.posInf = -1)
    ∧ fvCompare (none : Cell) FieldB.posInf = 0
    ∧ fvCompare (none : Cell) FieldB.negInf = 1 :=
  ⟨fun _ => rfl, fun _ => rfl, rfl, rfl⟩

/-- C9: `areTypesEqual` is structural equality after stripping the Nullable
wrapper and dictionary encoding from both sides; `checkTypesEqual` errors
exactly when `areTypesEqual` is false, and its message contains both the
candidate and the stored type name. -/
theorem types_equal_spec (s : SetState) (i : Nat) (t : DataType)
    (h : i < s.data_types.length) :
    (Set.areTypesEqual s i t = true ↔
      removeNullable (recursiveRemoveLowCardinality (s.data_types.get ⟨i, h⟩))
        = removeNullable (recursiveRemoveLowCardinality t))
    ∧ ((∃ msg, Set.checkTypesEqual s i t = .error msg)
        ↔ Set.areTypesEqual s i t = false)
    ∧ (∀ msg, Set.checkTypesEqual s i t = .error msg →
        ∃ pre mid post,
          msg = pre ++ t.getName ++ mid
            ++ (s.data_types.get ⟨i, h⟩).getName ++ post) := by
  have hget : s.data_types.getD i .int = s.data_types.get ⟨i, h⟩ := by
    rw [List.getD_eq_getElem s.data_types .int h]
    rfl
  refine ⟨?_, ?_, ?_⟩
  · unfold Set.areTypesEqual
    rw [hget]
    exact beq_iff_eq
  · unfold Set.checkTypesEqual
    by_cases ha : Set.areTypesEqual s i t
    · simp [ha]
    · simp [ha]
  · intro msg hmsg
    unfold Set.checkTypesEqual at hmsg
    by_cases ha : Set.areTypesEqual s i t
    · simp [ha] at hmsg
    · simp only [ha, Bool.not_false, if_true] at hmsg
      rw [Except.error.injEq] at hmsg
      refine ⟨"Types of column " ++ toString (i + 1)
          ++ " in section IN do not match: ", " on the left, ",
          " on the right", ?_⟩
      rw [← hmsg, hget]

/-- C10: `execute` on a block with at least one column and zero rows
returns the empty result before any validation: no error regardless of the
set's schema or the block's column count, and the result does not depend on
the cast collaborators. -/
theorem execute_zero_rows_no_validation (s : SetState)
    (castA castAON castA2 castAON2 : DataType → Cell → Cell)
    (cols : List Col) (negative : Bool)
    (h1 : cols ≠ []) (h2 : (cols.headD []).length = 0) :
    Set.execute s castA castAON cols negative = .ok []
    ∧ Set.execute s castA castAON cols negative
        = Set.execute s castA2 castAON2 cols negative := by
  have hl : ¬ cols.length = 0 := by
    simpa [List.length_eq_zero] using h1
  constructor
  · unfold Set.execute
    rw [if_neg hl, if_pos h2]
  · unfold Set.execute
    rw [if_neg hl, if_pos h2, if_neg hl, if_pos h2]

/-- Witness for C10: a set over one `Int` column probed with a zero-row
two-column block (mismatched arity, mismatched types) still answers the
empty column, for two different cast functions. -/
theorem execute_zero_rows_no_validation_witness :
    (([([] : Col), ([] : Col)] : List Col) ≠ []
      ∧ ((([([] : Col), ([] : Col)] : List Col)).headD []).length = 0)
    ∧ Set.execute (Set.setHeader (Set.mk0 ⟨0, 0⟩ false false) [.int])
        (fun _ c => c) (fun _ c => c) [([] : Col), ([] : Col)] false = .ok []
    ∧ Set.execute (Set.setHeader (Set.mk0 ⟨0, 0⟩ false false) [.int])
        (fun _ c => c) (fun _ c => c) [([] : Col), ([] : Col)] false
      = Set.execute (Set.setHeader (Set.mk0 ⟨0, 0⟩ false false) [.int])
        (fun _ _ => none) (fun _ _ => none) [([] : Col), ([] : Col)] false :=
  ⟨⟨by decide, by decide⟩,
    (execute_zero_rows_no_validation _ _ _ (fun _ _ => none) (fun _ _ => none)
      _ _ (by decide) (by decide)).1,
    (execute_zero_rows_no_validation _ _ _ (fun _ _ => none) (fun _ _ => none)
      _ _ (by decide) (by decide)).2⟩

/-- Witness for C9: a one-column `Int` set checked against `String`. -/
theorem types_equal_spec_witness :
    (0 < (Set.setHeader (Set.mk0 ⟨0, 0⟩ false false)
        [.int]).data_types.length)
    ∧ ((Set.areTypesEqual (Set.setHeader (Set.mk0 ⟨0, 0⟩ false false)
          [.int]) 0 .str = true ↔
        removeNullable (recursiveRemoveLowCardinality
          ((Set.setHeader (Set.mk0 ⟨0, 0⟩ false false)
            [.int]).data_types.get ⟨0, by decide⟩))
          = removeNullable (recursiveRemoveLowCardinality .str))
      ∧ ((∃ msg, Set.checkTypesEqual (Set.setHeader (Set.mk0 ⟨0, 0⟩ false false)
            [.int]) 0 .str = .error msg)
          ↔ Set.areTypesEqual (Set.setHeader (Set.mk0 ⟨0, 0⟩ false false)
            [.int]) 0 .str = false)
      ∧ (∀ msg, Set.checkTypesEqual (Set.setHeader (Set.mk0 ⟨0, 0⟩ false false)
            [.int]) 0 .str = .error msg →
          ∃ pre mid post,
            msg = pre ++ DataType.getName .str ++ mid
              ++ ((Set.setHeader (Set.mk0 ⟨0, 0⟩ false false)
                [.int]).data_types.get ⟨0, by decide⟩).getName ++ post)) :=
  ⟨by decide,
   types_equal_spec (Set.setHeader (Set.mk0 ⟨0, 0⟩ false false) [.int])
     0 .str (by decide)⟩

/-- Counterexample to C3: with `transformNullIn` and `fillElements` both
true, inserting the single tuple `(5, NULL)` (which has a NULL component)
does not append a NULL marker to each element column — column 0 ends up as
`[5]`, with no NULL in it, because `null_map_holder` is only assigned when
`transformNullIn` is false, so the marker branch never fires. -/
theorem insert_null_marker_counterexample :
    (Set.setHeader (Set.mk0 ⟨0, 0⟩ true true)
        [.nullable .int, .nullable .int]).transform_null_in = true
    ∧ (Set.setHeader (Set.mk0 ⟨0, 0⟩ true true)
        [.nullable .int, .nullable .int]).fill_set_elements = true
    ∧ (Set.tupleAt [[some 5], [none]] 0).any (fun c => c == none) = true
    ∧ (Set.insertCore (Set.setHeader (Set.mk0 ⟨0, 0⟩ true true)
          [.nullable .int, .nullable .int]) false
        [[some 5], [none]]).1.set_elements = [[some 5], [none]]
    ∧ ¬ ((none : Cell) ∈
        ((Set.insertCore (Set.setHeader (Set.mk0 ⟨0, 0⟩ true true)
            [.nullable .int, .nullable .int]) false
          [[some 5], [none]]).1.set_elements.getD 0 []))
    ∧ (Set.insertCore (Set.setHeader (Set.mk0 ⟨0, 0⟩ true true)
          [.nullable .int, .nullable .int]) true
        [[some 5], [none]]).1.set_elements = [[some 5], [none]] := by
  decide

/-- C3 as amended: under `transformNullIn` (indeed, always), the element
columns receive exactly the mask-filtered cells of the block — a
NULL-containing tuple is appended like any other newly-distinct tuple, and
the synthetic NULL-marker branch is dead because `null_map_holder` is only
assigned when `transformNullIn` is false, so zero (hence at most one)
synthetic markers are ever appended. -/
theorem insert_no_null_marker (s : SetState) (eh : Bool) (cols : List Col)
    (h : s.fill_set_elements = true) :
    (Set.insertCore s eh cols).1.set_elements
      = s.set_elements.zipWith
          (fun e c => e ++ Set.filterByMask c (Set.distinctMask s cols))
          cols := by
  unfold Set.insertCore
  simp only [h, if_true]
  have hdead : (s.transform_null_in && (!s.transform_null_in && eh)) = false := by
    cases s.transform_null_in <;> simp
  have hfun : (fun (e : Col) (c : Col) =>
      let filtered := Set.filterByMask c (Set.distinctMask s cols)
      let e2 := if e.isEmpty then filtered else e ++ filtered
      if s.transform_null_in && (!s.transform_null_in && eh)
      then e2 ++ [none] else e2)
      = (fun (e : Col) (c : Col) =>
          e ++ Set.filterByMask c (Set.distinctMask s cols)) := by
    funext e c
    rw [hdead]
    simp only [if_false, Bool.false_eq_true]
    cases e <;> simp
  rw [hfun]

/-- Witness for the amended C3: a one-nullable-column set under
`transformNullIn` fed a block containing a NULL and a value. -/
theorem insert_no_null_marker_witness :
    (Set.setHeader (Set.mk0 ⟨0, 0⟩ true true)
        [.nullable .int]).fill_set_elements = true
    ∧ (Set.insertCore (Set.setHeader (Set.mk0 ⟨0, 0⟩ true true)
          [.nullable .int]) false [[none, some 7]]).1.set_elements
      = (Set.setHeader (Set.mk0 ⟨0, 0⟩ true true)
          [.nullable .int]).set_elements.zipWith
          (fun e c => e ++ Set.filterByMask c
            (Set.distinctMask (Set.setHeader (Set.mk0 ⟨0, 0⟩ true true)
              [.nullable .int]) [[none, some 7]]))
          [[none, some 7]] :=
  ⟨by decide,
   insert_no_null_marker (Set.setHeader (Set.mk0 ⟨0, 0⟩ true true)
     [.nullable .int]) false [[none, some 7]] (by decide)⟩

/-- Counterexample to C8: `markDistinctBlock` is not a pure reader — it
inserts the block's keys into the hash table (under an exclusive lock in
the source), so the table contents and subsequent `execute` answers change. -/
theorem markDistinctBlock_mutates_counterexample :
    (Set.setHeader (Set.mk0 ⟨0, 0⟩ false false) [.int]).keys = []
    ∧ (Set.markDistinctBlock (Set.setHeader (Set.mk0 ⟨0, 0⟩ false false)
          [.int]) [[some 1]]).toOption.map (fun p => p.1.keys)
      = some [[some 1]]
    ∧ Set.execute (Set.setHeader (Set.mk0 ⟨0, 0⟩ false false) [.int])
        (fun _ c => c) (fun _ c => c) [[some 1]] false = .ok [false]
    ∧ (Set.markDistinctBlock (Set.setHeader (Set.mk0 ⟨0, 0⟩ false false)
          [.int]) [[some 1]]).toOption.map
        (fun p => Set.execute p.1 (fun _ c => c) (fun _ c => c)
          [[some 1]] false)
      = some (.ok [true]) := by
  decide

/-- C8 as amended: `markDistinctBlock` performs the exact same header check
and key insertion as `insertFromBlock` (same resulting hash-table contents,
same distinctness mask, no size-limit check), but leaves the element
columns — and every other field — unchanged, and only materializes the
mask when `fillElements` is set. -/
theorem markDistinctBlock_spec (s : SetState) (eh : Bool) (cols : List Col)
    (h : s.variant_chosen = true) :
    Set.markDistinctBlock s cols
      = .ok ({ s with keys := (Set.insertCore s eh cols).1.keys },
             if s.fill_set_elements then some (Set.distinctMask s cols)
             else none)
    ∧ ({ s with keys := (Set.insertCore s eh cols).1.keys}).set_elements
        = s.set_elements
    ∧ Set.insertFromBlock s eh cols = .ok (Set.insertCore s eh cols) := by
  refine ⟨?_, rfl, ?_⟩
  · unfold Set.markDistinctBlock
    rw [if_neg (by simp [h])]
    have hk : (Set.insertCore s eh cols).1.keys = Set.keysAfter s cols := by
      unfold Set.insertCore
      rfl
    rw [hk]
  · unfold Set.insertFromBlock
    rw [if_neg (by simp [h])]

/-- Witness for the amended C8. -/
theorem markDistinctBlock_spec_witness :
    (Set.setHeader (Set.mk0 ⟨0, 0⟩ true false) [.int]).variant_chosen = true
    ∧ (Set.markDistinctBlock (Set.setHeader (Set.mk0 ⟨0, 0⟩ true false)
          [.int]) [[some 4, some 4]]
        = .ok ({ (Set.setHeader (Set.mk0 ⟨0, 0⟩ true false) [.int]) with
              keys := (Set.insertCore (Set.setHeader
                (Set.mk0 ⟨0, 0⟩ true false) [.int]) false
                [[some 4, some 4]]).1.keys },
            if (Set.setHeader (Set.mk0 ⟨0, 0⟩ true false)
                [.int]).fill_set_elements
            then some (Set.distinctMask (Set.setHeader
              (Set.mk0 ⟨0, 0⟩ true false) [.int]) [[some 4, some 4]])
            else none)
      ∧ ({ (Set.setHeader (Set.mk0 ⟨0, 0⟩ true false) [.int]) with
            keys := (Set.insertCore (Set.setHeader
              (Set.mk0 ⟨0, 0⟩ true false) [.int]) false
              [[some 4, some 4]]).1.keys }).set_elements
          = (Set.setHeader (Set.mk0 ⟨0, 0⟩ true false) [.int]).set_elements
      ∧ Set.insertFromBlock (Set.setHeader (Set.mk0 ⟨0, 0⟩ true false)
            [.int]) false [[some 4, some 4]]
          = .ok (Set.insertCore (Set.setHeader
              (Set.mk0 ⟨0, 0⟩ true false) [.int]) false
              [[some 4, some 4]])) :=
  ⟨by decide,
   markDistinctBlock_spec (Set.setHeader (Set.mk0 ⟨0, 0⟩ true false) [.int])
     false [[some 4, some 4]] (by decide)⟩

theorem getD_range_map {α : Type} (n i : Nat) (f : Nat → α) (d : α)
    (h : i < n) : ((List.range n).map f).getD i d = f i := by
  rw [List.getD_eq_getElem _ _ (by simpa using h)]
  simp

/-- C1: on a set whose header is set with at least one key column, probed
with a block of matching column count and at least one row, `execute`
returns one boolean per row: under `!transformNullIn` a row whose cast key
tuple has a NULL component answers `negative`, and every other row answers
`negative XOR found`, where found means the cast key tuple is in the stored
key set. -/
theorem execute_per_row_characterization (s : SetState)
    (castA castAON : DataType → Cell → Cell) (cols : List Col)
    (negative : Bool) (n : Nat)
    (hne : s.data_types ≠ [])
    (hc : cols.length = s.data_types.length)
    (hn : 0 < n)
    (hrect : ∀ c ∈ cols, c.length = n) :
    Set.execute s castA castAON cols negative
      = .ok ((List.range n).map (fun i =>
          if !s.transform_null_in
              && (Set.tupleAt (Set.castKeyCols s castA castAON cols) i).any
                  (fun c => c == none)
          then negative
          else negative
            ^^ decide (Set.tupleAt (Set.castKeyCols s castA castAON cols) i
                ∈ s.keys))) := by
  have hlen0 : ¬ cols.length = 0 := by
    rw [hc]
    simpa [List.length_eq_zero] using hne
  have hhead : (cols.headD []).length = n := by
    cases cols with
    | nil => simp at hlen0
    | cons c0 cs => exact hrect c0 (List.mem_cons_self c0 cs)
  have hempty : ¬ s.data_types.isEmpty = true := by
    simpa [List.isEmpty_iff] using hne
  unfold Set.execute
  rw [if_neg hlen0]
  simp only [hhead]
  rw [if_neg (by omega), if_neg hempty, if_neg (by simp [hc])]
  cases htni : s.transform_null_in with
  | true =>
    simp only [Bool.not_true, Bool.false_and, Bool.false_eq_true, if_false,
      if_neg (by simp : ¬ (false = true))]
  | false =>
    simp only [Bool.not_false, if_pos rfl, Bool.true_and]
    rw [Except.ok.injEq]
    apply List.map_congr_left
    intro i hi
    rw [List.mem_range] at hi
    simp only [if_true]
    rw [getD_range_map n i _ false hi]

/-- Witness for C1: a one-column set holding 3 (header `Nullable(Int64)`,
`transformNullIn` false), probed with the three-row column `[3, NULL, 9]`
under identity casts. -/
theorem execute_per_row_characterization_witness :
    ((Set.insertCore (Set.setHeader (Set.mk0 ⟨0, 0⟩ false false)
          [.nullable .int]) false [[some 3]]).1.data_types ≠ []
      ∧ ([[some 3, none, some 9]] : List Col).length
          = (Set.insertCore (Set.setHeader (Set.mk0 ⟨0, 0⟩ false false)
              [.nullable .int]) false [[some 3]]).1.data_types.length
      ∧ 0 < 3
      ∧ (∀ c ∈ ([[some 3, none, some 9]] : List Col), c.length = 3))
    ∧ Set.execute (Set.insertCore (Set.setHeader (Set.mk0 ⟨0, 0⟩ false false)
          [.nullable .int]) false [[some 3]]).1
        (fun _ c => c) (fun _ c => c) [[some 3, none, some 9]] false
      = .ok ((List.range 3).map (fun i =>
          if !(Set.insertCore (Set.setHeader (Set.mk0 ⟨0, 0⟩ false false)
                [.nullable .int]) false [[some 3]]).1.transform_null_in
              && (Set.tupleAt (Set.castKeyCols
                    (Set.insertCore (Set.setHeader
                      (Set.mk0 ⟨0, 0⟩ false false) [.nullable .int]) false
                      [[some 3]]).1
                    (fun _ c => c) (fun _ c => c)
                    [[some 3, none, some 9]]) i).any (fun c => c == none)
          then false
          else false ^^ decide (Set.tupleAt (Set.castKeyCols
                (Set.insertCore (Set.setHeader
                  (Set.mk0 ⟨0, 0⟩ false false) [.nullable .int]) false
                  [[some 3]]).1
                (fun _ c => c) (fun _ c => c)
                [[some 3, none, some 9]]) i
              ∈ (Set.insertCore (Set.setHeader (Set.mk0 ⟨0, 0⟩ false false)
                  [.nullable .int]) false [[some 3]]).1.keys))) :=
  ⟨⟨by decide, by decide, by decide, by decide⟩,
   execute_per_row_characterization
     (Set.insertCore (Set.setHeader (Set.mk0 ⟨0, 0⟩ false false)
       [.nullable .int]) false [[some 3]]).1
     (fun _ c => c) (fun _ c => c) [[some 3, none, some 9]] false 3
     (by decide) (by decide) (by decide) (by decide)⟩

/-- `execute` only reads the stored types, the `transform_null_in` flag and
the hash-table contents. -/
theorem execute_congr {s t : SetState} (h1 : s.data_types = t.data_types)
    (h2 : s.transform_null_in = t.transform_null_in) (h3 : s.keys = t.keys)
    (castA castAON : DataType → Cell → Cell) (cols : List Col)
    (negative : Bool) :
    Set.execute s castA castAON cols negative
      = Set.execute t castA castAON cols negative := by
  unfold Set.execute Set.castKeyCols
  rw [h1, h2, h3]

/-- C5: `serialize` writes, in this order, the size limits, the
`fillElements` flag, the `transformNullIn` flag, the header schema, the
variant payload and the built flag; `deserialize` reads them back in the
same order, and the reconstructed set answers `execute` exactly as the
original on every probe block. -/
theorem serialize_roundtrip_execute (s : SetState) (h : Set.WellFormed s) :
    Set.serialize s
      = [Set.WireItem.limitsW s.limits, Set.WireItem.boolW s.fill_set_elements,
         Set.WireItem.boolW s.transform_null_in,
         Set.WireItem.blockW s.local_header,
         Set.WireItem.payloadW s.keys, Set.WireItem.boolW s.is_created]
    ∧ ∃ s2, Set.deserialize (Set.serialize s) = some s2
        ∧ s2.keys = s.keys
        ∧ s2.data_types = s.data_types
        ∧ s2.transform_null_in = s.transform_null_in
        ∧ s2.is_created = s.is_created
        ∧ ∀ (castA castAON : DataType → Cell → Cell) (cols : List Col)
            (negative : Bool),
            Set.execute s2 castA castAON cols negative
              = Set.execute s castA castAON cols negative := by
  obtain ⟨hv, hh, hks, hdt, hset⟩ := h
  have hser : Set.serialize s
      = [Set.WireItem.limitsW s.limits, Set.WireItem.boolW s.fill_set_elements,
         Set.WireItem.boolW s.transform_null_in,
         Set.WireItem.blockW s.local_header,
         Set.WireItem.payloadW s.keys, Set.WireItem.boolW s.is_created] := by
    unfold Set.serialize
    rw [hv]
    simp
  have hv1 : (Set.setHeader
      (Set.mk0 s.limits s.fill_set_elements s.transform_null_in)
      s.local_header).variant_chosen = true := by
    unfold Set.setHeader Set.mk0
    simp only [Bool.false_eq_true, if_false]
    simpa [List.length_eq_zero] using hh
  refine ⟨hser, ?_⟩
  refine ⟨{ Set.setHeader
      (Set.mk0 s.limits s.fill_set_elements s.transform_null_in)
      s.local_header with keys := s.keys, is_created := s.is_created },
    ?_, rfl, ?_, ?_, rfl, ?_⟩
  · rw [hser]
    show Set.deserializeImpl
        (Set.mk0 s.limits s.fill_set_elements s.transform_null_in)
        [Set.WireItem.blockW s.local_header,
         Set.WireItem.payloadW s.keys,
         Set.WireItem.boolW s.is_created] = _
    unfold Set.deserializeImpl
    simp only [hv1, if_true]
  · show (Set.setHeader
        (Set.mk0 s.limits s.fill_set_elements s.transform_null_in)
        s.local_header).data_types = s.data_types
    rw [hdt]
    rfl
  · rfl
  · intro castA castAON cols negative
    apply execute_congr
    · show (Set.setHeader
          (Set.mk0 s.limits s.fill_set_elements s.transform_null_in)
          s.local_header).data_types = s.data_types
      rw [hdt]
      rfl
    · rfl
    · rfl

/-- Witness for C5: round trip of a concrete built one-column set holding
1 and 2. -/
theorem serialize_roundtrip_execute_witness :
    Set.WellFormed { (Set.insertCore (Set.setHeader
        (Set.mk0 ⟨0, 0⟩ true true) [.int]) false
        [[some 1, some 2]]).1 with is_created := true }
    ∧ (Set.serialize { (Set.insertCore (Set.setHeader
          (Set.mk0 ⟨0, 0⟩ true true) [.int]) false
          [[some 1, some 2]]).1 with is_created := true }
        = [Set.WireItem.limitsW { (Set.insertCore (Set.setHeader
              (Set.mk0 ⟨0, 0⟩ true true) [.int]) false
              [[some 1, some 2]]).1 with is_created := true }.limits,
           Set.WireItem.boolW { (Set.insertCore (Set.setHeader
              (Set.mk0 ⟨0, 0⟩ true true) [.int]) false
              [[some 1, some 2]]).1 with is_created := true }.fill_set_elements,
           Set.WireItem.boolW { (Set.insertCore (Set.setHeader
              (Set.mk0 ⟨0, 0⟩ true true) [.int]) false
              [[some 1, some 2]]).1 with is_created := true }.transform_null_in,
           Set.WireItem.blockW { (Set.insertCore (Set.setHeader
              (Set.mk0 ⟨0, 0⟩ true true) [.int]) false
              [[some 1, some 2]]).1 with is_created := true }.local_header,
           Set.WireItem.payloadW { (Set.insertCore (Set.setHeader
              (Set.mk0 ⟨0, 0⟩ true true) [.int]) false
              [[some 1, some 2]]).1 with is_created := true }.keys,
           Set.WireItem.boolW { (Set.insertCore (Set.setHeader
              (Set.mk0 ⟨0, 0⟩ true true) [.int]) false
              [[some 1, some 2]]).1 with is_created := true }.is_created]
      ∧ ∃ s2, Set.deserialize (Set.serialize { (Set.insertCore (Set.setHeader
            (Set.mk0 ⟨0, 0⟩ true true) [.int]) false
            [[some 1, some 2]]).1 with is_created := true }) = some s2
          ∧ s2.keys = { (Set.insertCore (Set.setHeader
              (Set.mk0 ⟨0, 0⟩ true true) [.int]) false
              [[some 1, some 2]]).1 with is_created := true }.keys
          ∧ s2.data_types = { (Set.insertCore (Set.setHeader
              (Set.mk0 ⟨0, 0⟩ true true) [.int]) false
              [[some 1, some 2]]).1 with is_created := true }.data_types
          ∧ s2.transform_null_in = { (Set.insertCore (Set.setHeader
              (Set.mk0 ⟨0, 0⟩ true true) [.int]) false
              [[some 1, some 2]]).1 with is_created := true }.transform_null_in
          ∧ s2.is_created = { (Set.insertCore (Set.setHeader
              (Set.mk0 ⟨0, 0⟩ true true) [.int]) false
              [[some 1, some 2]]).1 with is_created := true }.is_created
          ∧ ∀ (castA castAON : DataType → Cell → Cell) (cols : List Col)
              (negative : Bool),
              Set.execute s2 castA castAON cols negative
                = Set.execute { (Set.insertCore (Set.setHeader
                    (Set.mk0 ⟨0, 0⟩ true true) [.int]) false
                    [[some 1, some 2]]).1 with is_created := true }
                    castA castAON cols negative) :=
  ⟨by decide,
   serialize_roundtrip_execute { (Set.insertCore (Set.setHeader
       (Set.mk0 ⟨0, 0⟩ true true) [.int]) false
       [[some 1, some 2]]).1 with is_created := true } (by decide)⟩

theorem processRows_extends (tni : Bool) : ∀ (rows : List Row) (keys : List Row),
    ∃ ext, (Set.processRows tni keys rows).1 = keys ++ ext := by
  intro rows
  induction rows with
  | nil => exact fun keys => ⟨[], by simp [Set.processRows]⟩
  | cons r rs ih =>
    intro keys
    simp only [Set.processRows]
    split_ifs with h1 h2
    · simpa using ih keys
    · simpa using ih keys
    · obtain ⟨ext, hext⟩ := ih (keys ++ [r])
      refine ⟨r :: ext, ?_⟩
      simp only [hext, List.append_assoc, List.singleton_append]

theorem insertCore_keys_extends (s : SetState) (eh : Bool) (cols : List Col) :
    ∃ ext, (Set.insertCore s eh cols).1.keys = s.keys ++ ext := by
  have : (Set.insertCore s eh cols).1.keys = Set.keysAfter s cols := rfl
  rw [this]
  exact processRows_extends s.transform_null_in _ s.keys

theorem insertCore_limits (s : SetState) (eh : Bool) (cols : List Col) :
    (Set.insertCore s eh cols).1.limits = s.limits := rfl

theorem feedStates_keys_le (eh : Bool) : ∀ (bs : List (List Col))
    (s : SetState) (k : Nat) (d : SetState × Bool), k < bs.length →
    s.keys.length ≤ ((Set.feedStates eh s bs).getD k d).1.keys.length := by
  intro bs
  induction bs with
  | nil =>
    intro s k d h
    simp at h
  | cons b bs ih =>
    intro s k d h
    obtain ⟨ext, hext⟩ := insertCore_keys_extends s eh b
    have h1 : s.keys.length ≤ (Set.insertCore s eh b).1.keys.length := by
      rw [hext]
      simp
    cases k with
    | zero =>
      simp only [Set.feedStates, List.getD_cons_zero]
      exact h1
    | succ k2 =>
      have h2 := ih (Set.insertCore s eh b).1 k2 d (by simpa using h)
      simp only [Set.feedStates, List.getD_cons_succ]
      omega

/-- C4: feeding blocks with `maxRows = N` (no byte limit), each
`insertFromBlock` call inserts first and checks once afterwards: the call
returns `true` exactly while the accumulated distinct-key count after its
own insert is at most `N`, and the accumulated count never decreases — so
the first call whose insert pushes the count past `N` returns `false`, as
does every later call, while every earlier call returns `true`. -/
theorem insertFromBlock_limit_characterization (s0 : SetState) (eh : Bool)
    (blocks : List (List Col)) (N : Nat) (hN : 0 < N)
    (hlim : s0.limits = ⟨N, 0⟩) :
    (∀ i, i < blocks.length →
      ((Set.feedStates eh s0 blocks).getD i (Set.mk0 ⟨0, 0⟩ false false, true)).2
        = decide (((Set.feedStates eh s0 blocks).getD i
            (Set.mk0 ⟨0, 0⟩ false false, true)).1.keys.length ≤ N))
    ∧ (∀ i j, i ≤ j → j < blocks.length →
      ((Set.feedStates eh s0 blocks).getD i (Set.mk0 ⟨0, 0⟩ false false, true)).1.keys.length
        ≤ ((Set.feedStates eh s0 blocks).getD j (Set.mk0 ⟨0, 0⟩ false false, true)).1.keys.length) := by
  constructor
  · induction blocks generalizing s0 with
    | nil =>
      intro i hi
      simp at hi
    | cons b bs ih =>
      intro i hi
      cases i with
      | zero =>
        simp only [Set.feedStates, List.getD_cons_zero]
        have hp : (Set.insertCore s0 eh b).2
            = s0.limits.check (Set.insertCore s0 eh b).1.keys.length
                (Set.totalByteCountModel (Set.insertCore s0 eh b).1.keys) :=
          rfl
        rw [hp, hlim]
        unfold SizeLimits.check
        have hne : (N == 0) = false := beq_eq_false_iff_ne.mpr (by omega)
        simp [hne]
      | succ i2 =>
        simp only [Set.feedStates, List.getD_cons_succ]
        exact ih (Set.insertCore s0 eh b).1
          (by rw [insertCore_limits, hlim]) i2 (by simpa using hi)
  · induction blocks generalizing s0 with
    | nil =>
      intro i j hij hj
      simp at hj
    | cons b bs ih =>
      intro i j hij hj
      cases i with
      | zero =>
        cases j with
        | zero => exact Nat.le_refl _
        | succ j2 =>
          simp only [Set.feedStates, List.getD_cons_zero, List.getD_cons_succ]
          exact feedStates_keys_le eh bs (Set.insertCore s0 eh b).1 j2 _
            (by simpa using hj)
      | succ i2 =>
        cases j with
        | zero => omega
        | succ j2 =>
          simp only [Set.feedStates, List.getD_cons_succ]
          exact ih (Set.insertCore s0 eh b).1
            (by rw [insertCore_limits, hlim]) i2 j2 (by omega)
            (by simpa using hj)

/-- Witness for C4: `maxRows = 2`, fed a two-row block (count 2, `true`)
then a one-row block (count 3, `false`). -/
theorem insertFromBlock_limit_characterization_witness :
    (0 < 2
      ∧ (Set.setHeader (Set.mk0 ⟨2, 0⟩ false false) [.int]).limits
          = ⟨2, 0⟩)
    ∧ ((∀ i, i < ([[[some 1, some 2]], [[some 9]]] : List (List Col)).length →
        ((Set.feedStates false (Set.setHeader (Set.mk0 ⟨2, 0⟩ false false)
            [.int]) [[[some 1, some 2]], [[some 9]]]).getD i
            (Set.mk0 ⟨0, 0⟩ false false, true)).2
          = decide (((Set.feedStates false (Set.setHeader
              (Set.mk0 ⟨2, 0⟩ false false) [.int])
              [[[some 1, some 2]], [[some 9]]]).getD i
              (Set.mk0 ⟨0, 0⟩ false false, true)).1.keys.length ≤ 2))
      ∧ (∀ i j, i ≤ j →
          j < ([[[some 1, some 2]], [[some 9]]] : List (List Col)).length →
          ((Set.feedStates false (Set.setHeader (Set.mk0 ⟨2, 0⟩ false false)
              [.int]) [[[some 1, some 2]], [[some 9]]]).getD i
              (Set.mk0 ⟨0, 0⟩ false false, true)).1.keys.length
            ≤ ((Set.feedStates false (Set.setHeader
                (Set.mk0 ⟨2, 0⟩ false false) [.int])
                [[[some 1, some 2]], [[some 9]]]).getD j
                (Set.mk0 ⟨0, 0⟩ false false, true)).1.keys.length)) :=
  ⟨⟨by decide, by decide⟩,
   insertFromBlock_limit_characterization
     (Set.setHeader (Set.mk0 ⟨2, 0⟩ false false) [.int]) false
     [[[some 1, some 2]], [[some 9]]] 2 (by decide) (by decide)⟩
